import Mathlib

/-!
Verification of the IR remote-control endpoint (protocol codec, learning
engine, signal analysis/similarity, database cache) against its design
specification.  The definitions below are shallow embeddings of the C
sources in `src/`: machine integers are modelled as `Nat` with explicit
`% 2^32` where 32-bit overflow can matter, fallible functions return
`Except`/`Option`, and the fixed-size buffers/arrays are modelled as
lists.  Pointer-validity checks on always-present arguments are dropped;
NULL data pointers that the code does test are modelled with `Option`.
-/

namespace IrSpec

/-! ### Error codes (magnitudes of the errno values returned by the C code) -/

def EINVAL : Nat := 22
def ENOMEM : Nat := 12
def ENOENT : Nat := 2
def ENOTSUP : Nat := 134
def EBUSY : Nat := 16

/-- 2^32, the modulus of `uint32_t` arithmetic. -/
def U32 : Nat := 4294967296

/-- UINT32_MAX. -/
def UINT32_MAX : Nat := 4294967295

/-! ### Protocol identifiers (`irdb_protocol_id_t`, irdb_protocol.h) -/

def IRDB_PROTOCOL_NEC1 : Nat := 1
def IRDB_PROTOCOL_NEC2 : Nat := 2
def IRDB_PROTOCOL_RC5 : Nat := 4
def IRDB_PROTOCOL_SONY12 : Nat := 15
def IRDB_PROTOCOL_SONY15 : Nat := 16
def IRDB_PROTOCOL_SONY20 : Nat := 17
def IRDB_PROTOCOL_SAMSUNG32 : Nat := 20

/-! ### Data model (irdb_protocol.h) -/

/-- `irdb_protocol_params_t`: static modulation parameters of one protocol. -/
structure irdb_protocol_params_t where
  protocol_id : Nat
  name : String
  frequency : Nat
  duty_cycle : Nat
  header_mark : Nat
  header_space : Nat
  bit_mark : Nat
  bit_0_space : Nat
  bit_1_space : Nat
  trailer_mark : Nat
  gap : Nat
  device_bits : Nat
  subdevice_bits : Nat
  function_bits : Nat
  toggle_bit : Bool
deriving Repr, DecidableEq

/-- `irdb_entry_t`: one named command bound to protocol/device/subdevice/function. -/
structure irdb_entry_t where
  function_name : String
  protocol : Nat
  device : Nat
  subdevice : Nat
  function : Nat
deriving Repr, DecidableEq

/-- The static protocol parameter table of irdb_protocol.c, entry NEC1. -/
def nec1_params : irdb_protocol_params_t :=
  ⟨IRDB_PROTOCOL_NEC1, "NEC1", 38000, 33, 9000, 4500, 560, 560, 1690, 560, 108000, 8, 8, 8, false⟩

/-- Protocol table entry NEC2. -/
def nec2_params : irdb_protocol_params_t :=
  ⟨IRDB_PROTOCOL_NEC2, "NEC2", 38000, 33, 9000, 4500, 560, 560, 1690, 560, 108000, 16, 0, 8, false⟩

/-- Protocol table entry RC5.  Note `bit_mark = bit_0_space = 889`. -/
def rc5_params : irdb_protocol_params_t :=
  ⟨IRDB_PROTOCOL_RC5, "RC5", 36000, 25, 0, 0, 889, 889, 889, 0, 113792, 5, 0, 6, true⟩

/-- Protocol table entry Sony12. -/
def sony12_params : irdb_protocol_params_t :=
  ⟨IRDB_PROTOCOL_SONY12, "Sony12", 40000, 33, 2400, 600, 1200, 600, 600, 0, 45000, 5, 0, 7, false⟩

/-- Protocol table entry Sony15. -/
def sony15_params : irdb_protocol_params_t :=
  ⟨IRDB_PROTOCOL_SONY15, "Sony15", 40000, 33, 2400, 600, 1200, 600, 600, 0, 45000, 8, 0, 7, false⟩

/-- Protocol table entry Samsung32. -/
def samsung32_params : irdb_protocol_params_t :=
  ⟨IRDB_PROTOCOL_SAMSUNG32, "Samsung32", 38000, 33, 4500, 4500, 560, 560, 1690, 560, 108000, 8, 8, 8, false⟩

/-- `protocol_params[]`: the static table, in source order. -/
def protocol_params : List irdb_protocol_params_t :=
  [nec1_params, nec2_params, rc5_params, sony12_params, sony15_params, samsung32_params]

/-- `irdb_get_protocol_params`: linear scan of the table for a protocol id. -/
def irdb_get_protocol_params (protocol : Nat) : Option irdb_protocol_params_t :=
  protocol_params.find? (fun p => p.protocol_id == protocol)

/-! ### Encoder (`irdb_encode_to_raw`, irdb_protocol.c lines 260-351) -/

/-- The bit sequence emitted by the encoder loop
`for (int i = total_bits - 1; i >= 0; i--) { bool bit = (code >> i) & 1; ... }`:
most significant of `total` bits first. -/
def bitsMSB (code total : Nat) : List Bool :=
  (List.range total).map (fun j => (code >>> (total - 1 - j)) % 2 = 1)

/-- `assemble_code`: the code-word assembly of `irdb_encode_to_raw`
(device field, then subdevice, then function, each masked to its width;
for NEC1 additionally the 8-bit complement `(~function) & 0xFF` of the
function byte).  Returns `(code, total_bits)`. -/
def assemble_code (entry : irdb_entry_t) (p : irdb_protocol_params_t) : Nat × Nat :=
  let c1 : Nat × Nat :=
    if p.device_bits > 0 then (entry.device % 2 ^ p.device_bits, p.device_bits) else (0, 0)
  let c2 : Nat × Nat :=
    if p.subdevice_bits > 0 then
      (c1.1 * 2 ^ p.subdevice_bits + entry.subdevice % 2 ^ p.subdevice_bits, c1.2 + p.subdevice_bits)
    else c1
  let c3 : Nat × Nat :=
    (c2.1 * 2 ^ p.function_bits + entry.function % 2 ^ p.function_bits, c2.2 + p.function_bits)
  if entry.protocol = IRDB_PROTOCOL_NEC1 then
    (c3.1 * 256 + (255 - entry.function % 256), c3.2 + 8)
  else c3

/-- The timing pair emitted for one data bit, by protocol class:
Manchester for RC5, pulse-width for the Sony range, pulse-distance otherwise. -/
def encode_bit_pair (protocol : Nat) (p : irdb_protocol_params_t) (bit : Bool) : List Nat :=
  if protocol = IRDB_PROTOCOL_RC5 then
    if bit then [p.bit_0_space, p.bit_mark] else [p.bit_mark, p.bit_0_space]
  else if IRDB_PROTOCOL_SONY12 ≤ protocol ∧ protocol ≤ IRDB_PROTOCOL_SONY20 then
    [if bit then p.bit_mark else p.bit_mark / 2, p.bit_0_space]
  else
    [p.bit_mark, if bit then p.bit_1_space else p.bit_0_space]

/-- The data-bit emission loop of `irdb_encode_to_raw`, with its per-bit
`idx + 2 > max_length` capacity check. -/
def encode_bits (protocol : Nat) (p : irdb_protocol_params_t) (max_length : Nat) :
    Nat → List Bool → Except Nat (List Nat)
  | _, [] => .ok []
  | idx, b :: rest =>
    if idx + 2 > max_length then .error ENOMEM
    else
      match encode_bits protocol p max_length (idx + 2) rest with
      | .ok tl => .ok (encode_bit_pair protocol p b ++ tl)
      | .error e => .error e

/-- `irdb_encode_to_raw`: header (if any), data bits MSB first, trailer (if any). -/
def irdb_encode_to_raw (entry : irdb_entry_t) (max_length : Nat) : Except Nat (List Nat) :=
  match irdb_get_protocol_params entry.protocol with
  | none => .error ENOTSUP
  | some p =>
    let header : Except Nat (List Nat) :=
      if p.header_mark > 0 then
        if 2 > max_length then .error ENOMEM else .ok [p.header_mark, p.header_space]
      else .ok []
    match header with
    | .error e => .error e
    | .ok h =>
      let ct := assemble_code entry p
      match encode_bits entry.protocol p max_length h.length (bitsMSB ct.1 ct.2) with
      | .error e => .error e
      | .ok body =>
        if p.trailer_mark > 0 then
          if h.length + body.length + 1 > max_length then .error ENOMEM
          else .ok (h ++ body ++ [p.trailer_mark])
        else .ok (h ++ body)

/-! ### Decoder (`timing_match`, `irdb_decode_from_raw`, irdb_protocol.c lines 353-466) -/

/-- `timing_match`: ±tolerance match with `tolerance = expected * 20 / 100`
in `uint32_t` arithmetic; an expected value of zero only matches a measured
zero. -/
def timing_match (measured expected : Nat) : Bool :=
  if expected = 0 then decide (measured = 0)
  else
    let tolerance := expected * 20 % U32 / 100
    decide (expected - tolerance ≤ measured) && decide (measured ≤ (expected + tolerance) % U32)

/-- One iteration body of the decode loop: classify a (mark, space) timing
pair as a 0-bit, a 1-bit, or a mismatch (`break`). -/
def decode_one_pair (protocol : Nat) (p : irdb_protocol_params_t) (t1 t2 : Nat) : Option Bool :=
  if protocol = IRDB_PROTOCOL_RC5 then
    if timing_match t1 p.bit_mark && timing_match t2 p.bit_0_space then some false
    else if timing_match t1 p.bit_0_space && timing_match t2 p.bit_mark then some true
    else none
  else
    if !timing_match t1 p.bit_mark then none
    else if timing_match t2 p.bit_0_space then some false
    else if timing_match t2 p.bit_1_space then some true
    else none

/-- The decode `while (idx + 1 < length && bits_decoded < total_bits)` loop:
consumes timing pairs, returning the accumulated word and the number of
bits decoded. -/
def decode_bits (protocol : Nat) (p : irdb_protocol_params_t) (total_bits : Nat) :
    List Nat → Nat → Nat → Nat × Nat
  | t1 :: t2 :: rest, decoded, bits_decoded =>
    if bits_decoded < total_bits then
      match decode_one_pair protocol p t1 t2 with
      | some b => decode_bits protocol p total_bits rest (2 * decoded + (if b then 1 else 0)) (bits_decoded + 1)
      | none => (decoded, bits_decoded)
    else (decoded, bits_decoded)
  | _, decoded, bits_decoded => (decoded, bits_decoded)

/-- One iteration of the decoder's per-entry loop: try to re-derive
header/body and extract the fields using this entry's protocol, then
compare them against the entry. -/
def try_decode_entry (entry : irdb_entry_t) (timings : List Nat) : Option irdb_entry_t :=
  match irdb_get_protocol_params entry.protocol with
  | none => none
  | some p =>
    let after_header : Option (List Nat) :=
      if p.header_mark > 0 then
        match timings with
        | t1 :: t2 :: rest =>
          if timing_match t1 p.header_mark && timing_match t2 p.header_space then some rest
          else none
        | _ => none
      else some timings
    match after_header with
    | none => none
    | some body =>
      let total_bits := p.device_bits + p.subdevice_bits + p.function_bits +
        (if entry.protocol = IRDB_PROTOCOL_NEC1 then 8 else 0)
      let db := decode_bits entry.protocol p total_bits body 0 0
      if db.2 ≠ total_bits then none
      else
        let function := db.1 % 2 ^ p.function_bits
        let d1 := db.1 / 2 ^ p.function_bits
        let d2 := if entry.protocol = IRDB_PROTOCOL_NEC1 then d1 / 256 else d1
        let subdevice := if p.subdevice_bits > 0 then d2 % 2 ^ p.subdevice_bits else 0
        let d3 := if p.subdevice_bits > 0 then d2 / 2 ^ p.subdevice_bits else d2
        let device := d3 % 2 ^ p.device_bits
        if device = entry.device ∧ subdevice = entry.subdevice ∧ function = entry.function then
          some entry
        else none

/-- `irdb_decode_from_raw`: brute-force search over the database entries
(in list order, first hit wins); the database is modelled by its entry
list. -/
def irdb_decode_from_raw (db : List irdb_entry_t) (timings : List Nat) :
    Except Nat irdb_entry_t :=
  if timings.length < 4 then .error EINVAL
  else
    match db.findSome? (fun e => try_decode_entry e timings) with
    | some e => .ok e
    | none => .error ENOENT

/-! ### Claim C1 -/

/-- The NEC1 entry `Power,1,7,7,12` from the spec's round-trip example. -/
def nec1_power : irdb_entry_t := ⟨"Power", IRDB_PROTOCOL_NEC1, 7, 7, 12⟩

/-- The raw timing sequence `irdb_encode_to_raw` produces for `nec1_power`. -/
def nec1_power_encoded : List Nat := (irdb_encode_to_raw nec1_power 200).toOption.getD []

/-- C1: the encode/decode round trip fails on the code.  For the NEC1 entry
(device 7, subdevice 7, function 12), encoding succeeds (67 timings), but
decoding the result against a database holding exactly that entry returns
`-ENOENT` instead of the entry: the decoder extracts the function field from
the trailing complement byte (its post-extraction shift skips the function
byte rather than the complement), so no NEC1 entry ever matches its own
encoding. -/
theorem nec1_roundtrip_returns_no_match :
    irdb_encode_to_raw nec1_power 200 = Except.ok nec1_power_encoded ∧
    nec1_power_encoded.length = 67 ∧
    irdb_decode_from_raw [nec1_power] nec1_power_encoded = Except.error ENOENT :=
  ⟨rfl, rfl, rfl⟩

/-! ### Helper lemmas about the encoder -/

/-- The plain (capacity-check-free) pair emission of a bit list. -/
def emit_pairs (protocol : Nat) (p : irdb_protocol_params_t) : List Bool → List Nat
  | [] => []
  | b :: rest => encode_bit_pair protocol p b ++ emit_pairs protocol p rest

lemma encode_bit_pair_length (protocol : Nat) (p : irdb_protocol_params_t) (b : Bool) :
    (encode_bit_pair protocol p b).length = 2 := by
  unfold encode_bit_pair; split_ifs <;> rfl

lemma emit_pairs_length (protocol : Nat) (p : irdb_protocol_params_t) (bits : List Bool) :
    (emit_pairs protocol p bits).length = 2 * bits.length := by
  induction bits with
  | nil => rfl
  | cons b rest ih =>
    simp only [emit_pairs, List.length_append, encode_bit_pair_length, ih, List.length_cons]
    omega

lemma encode_bits_ok (protocol : Nat) (p : irdb_protocol_params_t) (max_length : Nat) :
    ∀ (bits : List Bool) (idx : Nat), idx + 2 * bits.length ≤ max_length →
      encode_bits protocol p max_length idx bits = .ok (emit_pairs protocol p bits) := by
  intro bits
  induction bits with
  | nil => intro idx _; rfl
  | cons b rest ih =>
    intro idx h
    simp only [List.length_cons] at h
    rw [encode_bits, if_neg (by omega), ih (idx + 2) (by omega)]
    rfl

lemma bitsMSB_length (code total : Nat) : (bitsMSB code total).length = total := by
  simp [bitsMSB]

lemma shiftRight_low_bit (a b n i : Nat) (hi : i < n) :
    ((a * 2 ^ n + b) >>> i) % 2 = (b >>> i) % 2 := by
  rw [Nat.shiftRight_eq_div_pow, Nat.shiftRight_eq_div_pow]
  have h3 : i + (n - i - 1) + 1 = n := by omega
  have hpow : (2 : Nat) ^ n = 2 ^ i * (2 ^ (n - i - 1) * 2) := by
    calc (2 : Nat) ^ n = 2 ^ (i + (n - i - 1) + 1) := by rw [h3]
    _ = 2 ^ i * (2 ^ (n - i - 1) * 2) := by rw [pow_add, pow_add]; ring
  rw [hpow,
    show a * (2 ^ i * (2 ^ (n - i - 1) * 2)) = 2 ^ i * (a * 2 ^ (n - i - 1) * 2) from by ring,
    Nat.mul_add_div (Nat.pos_pow_of_pos i (by norm_num)),
    show a * 2 ^ (n - i - 1) * 2 + b / 2 ^ i = b / 2 ^ i + a * 2 ^ (n - i - 1) * 2 from by ring,
    Nat.add_mul_mod_self_right]

lemma shiftRight_high (a b n i : Nat) (hb : b < 2 ^ n) (hi : n ≤ i) :
    (a * 2 ^ n + b) >>> i = a >>> (i - n) := by
  rw [Nat.shiftRight_eq_div_pow, Nat.shiftRight_eq_div_pow]
  have h2 : (2 : Nat) ^ i = 2 ^ n * 2 ^ (i - n) := by rw [← pow_add]; congr 1; omega
  rw [h2, ← Nat.div_div_eq_div_mul]
  congr 1
  rw [Nat.mul_comm a, Nat.mul_add_div (Nat.pos_pow_of_pos n (by norm_num)),
    Nat.div_eq_of_lt hb, Nat.add_zero]

/-- Splitting the MSB-first bit list of a concatenated code word:
the high field's bits come first, the low field's bits follow. -/
lemma bitsMSB_split (a b m n : Nat) (hb : b < 2 ^ n) :
    bitsMSB (a * 2 ^ n + b) (m + n) = bitsMSB a m ++ bitsMSB b n := by
  apply List.ext_getElem
  · simp [bitsMSB]
  · intro i h1 h2
    simp only [bitsMSB, List.getElem_map, List.getElem_range]
    simp only [bitsMSB, List.length_map, List.length_range] at h1 h2
    by_cases him : i < m
    · rw [List.getElem_append_left (by simpa [bitsMSB] using him)]
      simp only [bitsMSB, List.getElem_map, List.getElem_range]
      rw [show m + n - 1 - i = (m - 1 - i) + n from by omega,
        shiftRight_high a b n _ hb (by omega), Nat.add_sub_cancel]
    · rw [List.getElem_append_right (by simpa [bitsMSB] using him)]
      simp only [bitsMSB, List.getElem_map, List.getElem_range, List.length_map, List.length_range]
      rw [show m + n - 1 - i = n - 1 - (i - m) from by omega,
        shiftRight_low_bit a b n _ (by omega)]

lemma get_params_nec1 : irdb_get_protocol_params IRDB_PROTOCOL_NEC1 = some nec1_params := rfl

lemma get_params_rc5 : irdb_get_protocol_params IRDB_PROTOCOL_RC5 = some rc5_params := rfl

/-- Evaluation of `irdb_encode_to_raw` for a protocol with header and
trailer, when the caller-supplied capacity suffices. -/
lemma encode_eq_of_params (entry : irdb_entry_t) (p : irdb_protocol_params_t) (maxLen : Nat)
    (hp : irdb_get_protocol_params entry.protocol = some p)
    (hhm : p.header_mark > 0) (htr : p.trailer_mark > 0)
    (hlen : 2 + 2 * (assemble_code entry p).2 + 1 ≤ maxLen) :
    irdb_encode_to_raw entry maxLen =
      .ok ([p.header_mark, p.header_space] ++
        emit_pairs entry.protocol p (bitsMSB (assemble_code entry p).1 (assemble_code entry p).2) ++
        [p.trailer_mark]) := by
  unfold irdb_encode_to_raw
  rw [hp]
  simp only [if_pos hhm, if_neg (show ¬ 2 > maxLen by omega)]
  rw [encode_bits_ok entry.protocol p maxLen _ _
    (by simp only [List.length_cons, List.length_nil, bitsMSB_length]; omega)]
  simp only [if_pos htr]
  rw [if_neg]
  simp only [List.length_cons, List.length_nil, emit_pairs_length, bitsMSB_length]
  omega

/-- Evaluation of `irdb_encode_to_raw` for a protocol without header or
trailer (the RC5 parameters), when the capacity suffices. -/
lemma encode_eq_of_params_bare (entry : irdb_entry_t) (p : irdb_protocol_params_t) (maxLen : Nat)
    (hp : irdb_get_protocol_params entry.protocol = some p)
    (hhm : p.header_mark = 0) (htr : p.trailer_mark = 0)
    (hlen : 2 * (assemble_code entry p).2 ≤ maxLen) :
    irdb_encode_to_raw entry maxLen =
      .ok (emit_pairs entry.protocol p (bitsMSB (assemble_code entry p).1 (assemble_code entry p).2)) := by
  unfold irdb_encode_to_raw
  rw [hp]
  simp only [hhm, gt_iff_lt, lt_irrefl, if_false]
  rw [encode_bits_ok entry.protocol p maxLen _ _
    (by simp only [List.length_nil, bitsMSB_length]; omega)]
  simp only [htr, gt_iff_lt, lt_irrefl, if_false, List.nil_append]

lemma assemble_code_nec1 (name : String) (d s f : Nat)
    (hd : d < 256) (hs : s < 256) (hf : f < 256) :
    assemble_code ⟨name, IRDB_PROTOCOL_NEC1, d, s, f⟩ nec1_params =
      (((d * 256 + s) * 256 + f) * 256 + (255 - f), 32) := by
  simp only [assemble_code, nec1_params, IRDB_PROTOCOL_NEC1]
  norm_num [Nat.mod_eq_of_lt hd, Nat.mod_eq_of_lt hs, Nat.mod_eq_of_lt hf]

lemma assemble_code_rc5 (name : String) (d s f : Nat) (hd : d < 32) (hf : f < 64) :
    assemble_code ⟨name, IRDB_PROTOCOL_RC5, d, s, f⟩ rc5_params = (d * 64 + f, 11) := by
  simp only [assemble_code, rc5_params, IRDB_PROTOCOL_RC5, IRDB_PROTOCOL_NEC1]
  norm_num [Nat.mod_eq_of_lt hd, Nat.mod_eq_of_lt hf]

/-! ### Claim C2 -/

/-- C2: for every NEC1 entry with byte-sized fields, the encoder output is
the header pair, then — most significant bit first — the 8 device bits, the
8 subdevice bits, the 8 function bits, and immediately after them the 8
bits of the function byte's bitwise complement as the last field before the
trailer mark; each data bit is a 560 µs mark followed by a 1690 µs (1) or
560 µs (0) space. -/
theorem nec1_encode_field_layout (name : String) (d s f maxLen : Nat)
    (hd : d < 256) (hs : s < 256) (hf : f < 256) (hlen : 67 ≤ maxLen) :
    irdb_encode_to_raw ⟨name, IRDB_PROTOCOL_NEC1, d, s, f⟩ maxLen =
      Except.ok ([9000, 4500] ++
        emit_pairs IRDB_PROTOCOL_NEC1 nec1_params
          (bitsMSB d 8 ++ bitsMSB s 8 ++ bitsMSB f 8 ++ bitsMSB (255 - f) 8) ++ [560]) ∧
    (∀ b : Bool, encode_bit_pair IRDB_PROTOCOL_NEC1 nec1_params b = [560, if b then 1690 else 560]) := by
  constructor
  · rw [encode_eq_of_params _ nec1_params maxLen get_params_nec1 (by norm_num [nec1_params])
      (by norm_num [nec1_params])
      (by rw [assemble_code_nec1 name d s f hd hs hf]; omega)]
    rw [assemble_code_nec1 name d s f hd hs hf]
    have h1 : bitsMSB (((d * 256 + s) * 256 + f) * 256 + (255 - f)) 32 =
        bitsMSB d 8 ++ bitsMSB s 8 ++ bitsMSB f 8 ++ bitsMSB (255 - f) 8 := by
      have e1 : bitsMSB (((d * 256 + s) * 256 + f) * 256 + (255 - f)) (24 + 8) =
          bitsMSB ((d * 256 + s) * 256 + f) 24 ++ bitsMSB (255 - f) 8 := by
        have := bitsMSB_split ((d * 256 + s) * 256 + f) (255 - f) 24 8 (by omega)
        simpa using this
      have e2 : bitsMSB ((d * 256 + s) * 256 + f) (16 + 8) =
          bitsMSB (d * 256 + s) 16 ++ bitsMSB f 8 := by
        have := bitsMSB_split (d * 256 + s) f 16 8 (by omega)
        simpa using this
      have e3 : bitsMSB (d * 256 + s) (8 + 8) = bitsMSB d 8 ++ bitsMSB s 8 := by
        have := bitsMSB_split d s 8 8 (by omega)
        simpa using this
      norm_num at e1 e2 e3
      rw [e1, e2, e3, List.append_assoc, List.append_assoc]
    rw [h1]
    norm_num [nec1_params]
  · intro b
    simp [encode_bit_pair, IRDB_PROTOCOL_RC5, IRDB_PROTOCOL_NEC1, IRDB_PROTOCOL_SONY12,
      nec1_params]

/-- Witness for C2 at the spec's example `device 7, subdevice 7, function 12`
(whose complement byte is 243). -/
theorem nec1_encode_field_layout_witness :
    irdb_encode_to_raw ⟨"Power", IRDB_PROTOCOL_NEC1, 7, 7, 12⟩ 100 =
      Except.ok ([9000, 4500] ++
        emit_pairs IRDB_PROTOCOL_NEC1 nec1_params
          (bitsMSB 7 8 ++ bitsMSB 7 8 ++ bitsMSB 12 8 ++ bitsMSB 243 8) ++ [560]) :=
  (nec1_encode_field_layout "Power" 7 7 12 100 (by norm_num) (by norm_num) (by norm_num)
    (by norm_num)).1

/-! ### Claim C3 -/

/-- C3: within `irdb_decode_from_raw`'s range of expected durations (no
32-bit overflow of `expected * 20`), `timing_match` accepts a measured
duration exactly when it lies within ±20% of the expected value
(`100·|measured−expected| ≤ 20·expected`), except that an expected
duration of zero matches only a measured zero. -/
theorem timing_match_iff_20_percent (m e : Nat) (he : e * 20 < U32) :
    timing_match m e = true ↔
      (if e = 0 then m = 0 else 100 * (max m e - min m e) ≤ 20 * e) := by
  unfold timing_match
  by_cases h0 : e = 0
  · subst h0; simp
  · rw [if_neg h0, if_neg h0]
    have hmod : e * 20 % U32 = e * 20 := Nat.mod_eq_of_lt he
    have h1 : 100 * (e * 20 % U32 / 100) + e * 20 % U32 % 100 = e * 20 % U32 :=
      Nat.div_add_mod _ 100
    have h2 : e * 20 % U32 % 100 < 100 := Nat.mod_lt _ (by norm_num)
    have h3 : e * 20 % U32 / 100 ≤ e := by omega
    have h4 : (e + e * 20 % U32 / 100) % U32 = e + e * 20 % U32 / 100 := by
      apply Nat.mod_eq_of_lt
      have : U32 = 4294967296 := rfl
      omega
    simp only [h4, Bool.and_eq_true, decide_eq_true_eq]
    rw [hmod] at h1
    rcases Nat.le_total m e with hle | hle
    · rw [Nat.max_eq_right hle, Nat.min_eq_left hle]
      omega
    · rw [Nat.max_eq_left hle, Nat.min_eq_right hle]
      omega

/-- Witness for C3 at measured 672, expected 560 (exactly +20%). -/
theorem timing_match_iff_20_percent_witness :
    560 * 20 < U32 ∧
      (timing_match 672 560 = true ↔
        (if (560 : Nat) = 0 then (672 : Nat) = 0 else 100 * (max 672 560 - min 672 560) ≤ 20 * 560)) :=
  ⟨by norm_num [U32], timing_match_iff_20_percent 672 560 (by norm_num [U32])⟩

/-! ### Claim C4 -/

/-- C4: under the RC5 (Manchester) branch of `irdb_encode_to_raw`, every
1-bit emits the pair (bit_0_space, bit_mark) — space first, then mark — and
every 0-bit emits (bit_mark, bit_0_space), both halves of the fixed
durations from the parameter table; and an RC5 encode is exactly the
concatenation of these per-bit pairs over the MSB-first code word (no
header, no trailer). -/
theorem rc5_manchester_bit_pairs :
    (∀ (p : irdb_protocol_params_t) (b : Bool),
      encode_bit_pair IRDB_PROTOCOL_RC5 p b =
        if b then [p.bit_0_space, p.bit_mark] else [p.bit_mark, p.bit_0_space]) ∧
    (∀ (name : String) (d s f maxLen : Nat), d < 32 → f < 64 → 22 ≤ maxLen →
      irdb_encode_to_raw ⟨name, IRDB_PROTOCOL_RC5, d, s, f⟩ maxLen =
        Except.ok (emit_pairs IRDB_PROTOCOL_RC5 rc5_params (bitsMSB (d * 64 + f) 11))) := by
  constructor
  · intro p b
    simp [encode_bit_pair]
  · intro name d s f maxLen hd hf hlen
    rw [encode_eq_of_params_bare _ rc5_params maxLen get_params_rc5 (by norm_num [rc5_params])
      (by norm_num [rc5_params]) (by rw [assemble_code_rc5 name d s f hd hf]; omega)]
    rw [assemble_code_rc5 name d s f hd hf]

/-- Witness for C4: the RC5 entry device 3, function 7 encodes to the
Manchester pair sequence of the 11-bit word 199. -/
theorem rc5_manchester_bit_pairs_witness :
    irdb_encode_to_raw ⟨"x", IRDB_PROTOCOL_RC5, 3, 0, 7⟩ 30 =
      Except.ok (emit_pairs IRDB_PROTOCOL_RC5 rc5_params (bitsMSB (3 * 64 + 7) 11)) :=
  rc5_manchester_bit_pairs.2 "x" 3 0 7 30 (by norm_num) (by norm_num) (by norm_num)

/-! ### Learning engine data model (ir_learning.h / ir_learning.c) -/

def IR_LEARNING_MAX_EDGES : Nat := 512
def MIN_PULSE_US : Nat := 50

/-- `ir_learned_signal_t`; the timing buffer (with its `timing_count`
valid prefix) is modelled by the list `timings`. -/
structure ir_learned_signal_t where
  name : String
  timings : List Nat
  carrier_freq : Nat
  total_duration_us : Nat
  valid : Bool
deriving Repr, DecidableEq

/-- `ir_signal_analysis_t`. -/
structure ir_signal_analysis_t where
  avg_mark : Nat
  avg_space : Nat
  min_pulse : Nat
  max_pulse : Nat
  pulse_count : Nat
  estimated_freq : Nat
deriving Repr, DecidableEq

/-- Accumulator of `ir_learning_analyze`'s single scan loop. -/
structure analyze_acc where
  mark_sum : Nat
  space_sum : Nat
  mark_count : Nat
  space_count : Nat
  min_pulse : Nat
  max_pulse : Nat
deriving Repr, DecidableEq

/-- The scan loop of `ir_learning_analyze`: min/max over all durations,
separate sums/counts for even-indexed (mark) and odd-indexed (space)
durations. -/
def analyze_loop : List Nat → Nat → analyze_acc → analyze_acc
  | [], _, acc => acc
  | d :: rest, i, acc =>
    analyze_loop rest (i + 1)
      { mark_sum := if i % 2 = 0 then acc.mark_sum + d else acc.mark_sum
        space_sum := if i % 2 = 0 then acc.space_sum else acc.space_sum + d
        mark_count := if i % 2 = 0 then acc.mark_count + 1 else acc.mark_count
        space_count := if i % 2 = 0 then acc.space_count else acc.space_count + 1
        min_pulse := if d < acc.min_pulse then d else acc.min_pulse
        max_pulse := if d > acc.max_pulse then d else acc.max_pulse }

/-- `ir_learning_analyze` (ir_learning.c lines 470-530).  The frequency
estimate divides 1000000 by `min_pulse * 2` in `uint32_t` arithmetic; a
`min_pulse` of `2^31` would make that divisor zero (undefined in C), so
theorems below restrict to `min_pulse < 2^31`. -/
def ir_learning_analyze (signal : ir_learned_signal_t) : Except Nat ir_signal_analysis_t :=
  if signal.valid = false then .error EINVAL
  else
    let acc := analyze_loop signal.timings 0 ⟨0, 0, 0, 0, UINT32_MAX, 0⟩
    let avg_mark := if acc.mark_count > 0 then acc.mark_sum / acc.mark_count else 0
    let avg_space := if acc.space_count > 0 then acc.space_sum / acc.space_count else 0
    let estimated_freq :=
      if acc.min_pulse > 0 then
        let f0 := 1000000 / (acc.min_pulse * 2 % U32)
        if f0 > 35000 ∧ f0 < 41000 then 38000
        else if f0 > 33000 ∧ f0 < 37000 then 36000
        else if f0 > 38000 ∧ f0 < 42000 then 40000
        else f0
      else 0
    .ok ⟨avg_mark, avg_space, acc.min_pulse, acc.max_pulse, signal.timings.length, estimated_freq⟩

/-- Outcome of `ir_learning_compare`: a similarity percentage, an error
code, or the undefined division `matches * 100 / 0` the C code would
perform when the compared length is zero. -/
inductive compare_result where
  | ok (similarity : Nat)
  | err (code : Nat)
  | division_by_zero
deriving Repr, DecidableEq

/-- The element-wise matching loop of `ir_learning_compare`: counts pairs
whose absolute difference is within the fixed 200 µs tolerance, over the
shorter length. -/
def count_matches : List Nat → List Nat → Nat
  | t1 :: r1, t2 :: r2 =>
    (if (if t1 > t2 then t1 - t2 else t2 - t1) ≤ 200 then 1 else 0) + count_matches r1 r2
  | _, _ => 0

/-- `ir_learning_compare` (ir_learning.c lines 533-564). -/
def ir_learning_compare (sig1 sig2 : ir_learned_signal_t) : compare_result :=
  if sig1.valid = false ∨ sig2.valid = false then .err EINVAL
  else
    let n1 := sig1.timings.length
    let n2 := sig2.timings.length
    if (if n1 > n2 then n1 - n2 else n2 - n1) > 10 then .ok 0
    else
      let min_len := min n1 n2
      if min_len = 0 then .division_by_zero
      else .ok (count_matches sig1.timings sig2.timings * 100 / min_len)

/-! ### Learning capture state machine (ir_learning.c lines 26-249) -/

/-- The mutable fields of `learn_state` that the claims concern; the
timing buffer's written prefix is the list `timings`, and
`buf_allocated` models whether `current_signal.timings` is non-NULL. -/
structure learn_state_t where
  timings : List Nat
  timing_count : Nat
  valid : Bool
  active : Bool
  edge_count : Nat
  buf_allocated : Bool
deriving Repr, DecidableEq

/-- The `ir_learn_status_t` values a callback can be invoked with. -/
inductive learn_status where
  | waiting
  | receiving
  | completed
  | timeout_status
  | error_status
deriving Repr, DecidableEq

/-- `signal_end_handler`: on an active session with at least one edge,
freeze the buffer length into `timing_count`, mark the signal valid,
deactivate, and notify Completed. -/
def signal_end_handler (s : learn_state_t) : learn_state_t × List learn_status :=
  if s.active = false ∨ s.edge_count = 0 then (s, [])
  else ({ s with timing_count := s.edge_count, valid := true, active := false },
        [.completed])

/-- `learning_timeout_handler`: deactivate and notify Timeout. -/
def learning_timeout_handler (s : learn_state_t) : learn_state_t × List learn_status :=
  if s.active = false then (s, [])
  else ({ s with active := false }, [.timeout_status])

/-- `learning_rx_callback`: noise filter, NULL-buffer recovery, first-edge
Receiving notification, forced completion on a full buffer, and otherwise
the append of the accepted duration. -/
def learning_rx_callback (duration : Nat) (s : learn_state_t) :
    learn_state_t × List learn_status :=
  if s.active = false then (s, [])
  else if duration < MIN_PULSE_US then (s, [])
  else if s.buf_allocated = false then ({ s with active := false }, [.error_status])
  else
    let first_notifs : List learn_status := if s.edge_count = 0 then [.receiving] else []
    if s.edge_count ≥ IR_LEARNING_MAX_EDGES then
      let r := signal_end_handler s
      (r.1, first_notifs ++ r.2)
    else
      ({ s with timings := s.timings ++ [duration], edge_count := s.edge_count + 1 },
       first_notifs)

/-- `ir_learning_start`: reject a running or uninitialized session,
otherwise reset the signal (keeping the buffer allocation), activate, and
notify Waiting. -/
def ir_learning_start (s : learn_state_t) : Except Nat (learn_state_t × List learn_status) :=
  if s.active = true then .error EBUSY
  else if s.buf_allocated = false then .error EINVAL
  else .ok ({ timings := [], timing_count := 0, valid := false, active := true,
              edge_count := 0, buf_allocated := true }, [.waiting])

/-- `ir_learning_stop`: idempotent deactivation. -/
def ir_learning_stop (s : learn_state_t) : learn_state_t :=
  if s.active = false then s else { s with active := false }

/-! ### Claim C5 -/

/-- A valid signal whose minimum pulse is 14 µs (raw estimate 35714). -/
def sig_min14 : ir_learned_signal_t := ⟨"sig14", [14, 500], 0, 0, true⟩

/-- C5 counterexample: the snap is not to the nearest canonical band.  For
a minimum pulse of 14 µs the raw estimate is 35714, whose nearest band is
36000 (distance 286 versus 2286 to 38000), yet `ir_learning_analyze`
returns 38000 — neither the nearest band nor the raw estimate. -/
theorem analyze_snap_not_nearest_band :
    (ir_learning_analyze sig_min14).map ir_signal_analysis_t.estimated_freq = Except.ok 38000 ∧
    1000000 / (2 * 14) = 35714 ∧
    36000 - 35714 < 38000 - 35714 ∧
    (38000 : Nat) ≠ 36000 ∧ (38000 : Nat) ≠ 35714 :=
  ⟨rfl, rfl, by norm_num, by norm_num, by norm_num⟩

/-- C5 as amended: the estimate `1000000 / (2·min_pulse)` is checked
against the bands in the code's fixed order — first the 38 kHz window
(35000, 41000), then the 36 kHz window (33000, 37000), then the 40 kHz
window (38000, 42000) — and snapped to the first band whose window
contains it (not necessarily the nearest); otherwise the raw estimate is
kept.  In particular a minimum pulse of 13 µs (raw estimate 38461) yields
exactly 38000. -/
theorem analyze_freq_snap (sig : ir_learned_signal_t) (m : Nat) (hv : sig.valid = true)
    (hmin : (analyze_loop sig.timings 0 ⟨0, 0, 0, 0, UINT32_MAX, 0⟩).min_pulse = m)
    (hpos : 0 < m) (hsmall : m < 2147483648) :
    (ir_learning_analyze sig).map ir_signal_analysis_t.estimated_freq =
      Except.ok
        (if 35000 < 1000000 / (2 * m) ∧ 1000000 / (2 * m) < 41000 then 38000
         else if 33000 < 1000000 / (2 * m) ∧ 1000000 / (2 * m) < 37000 then 36000
         else if 38000 < 1000000 / (2 * m) ∧ 1000000 / (2 * m) < 42000 then 40000
         else 1000000 / (2 * m)) := by
  unfold ir_learning_analyze
  rw [hv]
  simp only [Bool.true_eq_false, if_false, hmin, Except.map]
  rw [if_pos hpos, Nat.mod_eq_of_lt (show m * 2 < U32 by unfold U32; omega),
    Nat.mul_comm m 2]

/-- Witness for (amended) C5 at the spec's 13 µs instance. -/
theorem analyze_freq_snap_witness :
    (ir_learning_analyze ⟨"sig", [13, 600], 0, 0, true⟩).map ir_signal_analysis_t.estimated_freq =
      Except.ok 38000 :=
  (analyze_freq_snap ⟨"sig", [13, 600], 0, 0, true⟩ 13 rfl rfl (by norm_num)
    (by norm_num)).trans rfl

/-! ### Claim C6 -/

lemma count_matches_self (l : List Nat) : count_matches l l = l.length := by
  induction l with
  | nil => rfl
  | cons a r ih =>
    simp [count_matches, ih]
    omega

/-- C6: `ir_learning_compare` on two valid signals returns 0 when the
lengths differ by more than 10; otherwise (when the shorter length is
nonzero, see the division claim) it returns `matches * 100 /
shorter_length` with element-wise 200 µs absolute tolerance, not
penalizing elements beyond the shorter length; identical valid signals of
length 20 give 100, and lengths 20 and 35 give 0 regardless of content. -/
theorem ir_learning_compare_spec :
    (∀ s1 s2 : ir_learned_signal_t, s1.valid = true → s2.valid = true →
      10 < max s1.timings.length s2.timings.length - min s1.timings.length s2.timings.length →
      ir_learning_compare s1 s2 = .ok 0) ∧
    (∀ s1 s2 : ir_learned_signal_t, s1.valid = true → s2.valid = true →
      max s1.timings.length s2.timings.length - min s1.timings.length s2.timings.length ≤ 10 →
      0 < min s1.timings.length s2.timings.length →
      ir_learning_compare s1 s2 =
        .ok (count_matches s1.timings s2.timings * 100 /
          min s1.timings.length s2.timings.length)) ∧
    (∀ s : ir_learned_signal_t, s.valid = true → s.timings.length = 20 →
      ir_learning_compare s s = .ok 100) ∧
    (∀ s1 s2 : ir_learned_signal_t, s1.valid = true → s2.valid = true →
      s1.timings.length = 20 → s2.timings.length = 35 →
      ir_learning_compare s1 s2 = .ok 0) := by
  have habs : ∀ a b : Nat, (if a > b then a - b else b - a) = max a b - min a b := by
    intro a b; split_ifs <;> omega
  refine ⟨?_, ?_, ?_, ?_⟩
  · intro s1 s2 h1 h2 hdist
    unfold ir_learning_compare
    rw [h1, h2]
    simp only [Bool.true_eq_false, or_self, if_false, habs]
    rw [if_pos hdist]
  · intro s1 s2 h1 h2 hdist hlen
    unfold ir_learning_compare
    rw [h1, h2]
    simp only [Bool.true_eq_false, or_self, if_false, habs]
    rw [if_neg (by omega), if_neg (by omega)]
  · intro s h hlen
    unfold ir_learning_compare
    rw [h]
    simp only [Bool.true_eq_false, or_self, if_false, habs, count_matches_self, hlen]
    norm_num
  · intro s1 s2 h1 h2 hl1 hl2
    unfold ir_learning_compare
    rw [h1, h2, hl1, hl2]
    simp only [Bool.true_eq_false, or_self, if_false]
    norm_num

/-- Witness for C6: identical valid length-20 signals compare to 100 and a
20-vs-35 pair compares to 0. -/
theorem ir_learning_compare_spec_witness :
    ir_learning_compare ⟨"a", List.replicate 20 560, 0, 0, true⟩
        ⟨"a", List.replicate 20 560, 0, 0, true⟩ = .ok 100 ∧
    ir_learning_compare ⟨"a", List.replicate 20 560, 0, 0, true⟩
        ⟨"b", List.replicate 35 900, 0, 0, true⟩ = .ok 0 :=
  ⟨ir_learning_compare_spec.2.2.1 ⟨"a", List.replicate 20 560, 0, 0, true⟩ rfl rfl,
   ir_learning_compare_spec.2.2.2 ⟨"a", List.replicate 20 560, 0, 0, true⟩
     ⟨"b", List.replicate 35 900, 0, 0, true⟩ rfl rfl rfl rfl⟩

/-! ### Claim C10 -/

/-- C10: the final division of `ir_learning_compare` uses the shorter
timing count unguarded: two valid zero-length signals pass the
length-difference check and reach a division by zero, while under the
precondition that both signals have at least one timing (and the lengths
differ by at most 10) the similarity `matches * 100 / min_len` is
well-defined. -/
theorem compare_division_unguarded :
    (∀ s1 s2 : ir_learned_signal_t, s1.valid = true → s2.valid = true →
      s1.timings.length = 0 → s2.timings.length = 0 →
      ir_learning_compare s1 s2 = .division_by_zero) ∧
    (∀ s1 s2 : ir_learned_signal_t, s1.valid = true → s2.valid = true →
      max s1.timings.length s2.timings.length - min s1.timings.length s2.timings.length ≤ 10 →
      1 ≤ min s1.timings.length s2.timings.length →
      ir_learning_compare s1 s2 ≠ .division_by_zero ∧
      ir_learning_compare s1 s2 =
        .ok (count_matches s1.timings s2.timings * 100 /
          min s1.timings.length s2.timings.length)) := by
  constructor
  · intro s1 s2 h1 h2 hl1 hl2
    unfold ir_learning_compare
    rw [h1, h2, hl1, hl2]
    norm_num
  · intro s1 s2 h1 h2 hdist hlen
    have habs : ∀ a b : Nat, (if a > b then a - b else b - a) = max a b - min a b := by
      intro a b; split_ifs <;> omega
    unfold ir_learning_compare
    rw [h1, h2]
    simp only [Bool.true_eq_false, or_self, if_false, habs]
    rw [if_neg (by omega), if_neg (by omega)]
    exact ⟨by simp, rfl⟩

/-- Witness for C10: two valid empty signals drive the code into the
unguarded division. -/
theorem compare_division_unguarded_witness :
    ir_learning_compare ⟨"a", [], 0, 0, true⟩ ⟨"b", [], 0, 0, true⟩ = .division_by_zero :=
  compare_division_unguarded.1 ⟨"a", [], 0, 0, true⟩ ⟨"b", [], 0, 0, true⟩ rfl rfl rfl rfl

/-! ### Claim C7 -/

/-- C7: an accepted edge arriving with the capture buffer full
(`edge_count = IR_LEARNING_MAX_EDGES`) ends the capture as a normal
completion — the signal becomes valid with `timing_count` equal to the
edges accepted so far, exactly one Completed notification is emitted and
no Error — and every learning-engine operation preserves
`timing_count ≤ IR_LEARNING_MAX_EDGES` and `edge_count ≤
IR_LEARNING_MAX_EDGES`. -/
theorem rx_overflow_completes :
    (∀ (s : learn_state_t) (d : Nat), s.active = true → s.buf_allocated = true →
      MIN_PULSE_US ≤ d → s.edge_count = IR_LEARNING_MAX_EDGES →
      learning_rx_callback d s =
        ({ s with timing_count := IR_LEARNING_MAX_EDGES, valid := true, active := false },
         [.completed])) ∧
    (∀ (s : learn_state_t) (d : Nat),
      s.edge_count ≤ IR_LEARNING_MAX_EDGES → s.timing_count ≤ IR_LEARNING_MAX_EDGES →
      ((learning_rx_callback d s).1.edge_count ≤ IR_LEARNING_MAX_EDGES ∧
        (learning_rx_callback d s).1.timing_count ≤ IR_LEARNING_MAX_EDGES) ∧
      ((signal_end_handler s).1.edge_count ≤ IR_LEARNING_MAX_EDGES ∧
        (signal_end_handler s).1.timing_count ≤ IR_LEARNING_MAX_EDGES) ∧
      ((learning_timeout_handler s).1.edge_count ≤ IR_LEARNING_MAX_EDGES ∧
        (learning_timeout_handler s).1.timing_count ≤ IR_LEARNING_MAX_EDGES) ∧
      ((ir_learning_stop s).edge_count ≤ IR_LEARNING_MAX_EDGES ∧
        (ir_learning_stop s).timing_count ≤ IR_LEARNING_MAX_EDGES) ∧
      (∀ (s' : learn_state_t) (n : List learn_status), ir_learning_start s = .ok (s', n) →
        s'.edge_count ≤ IR_LEARNING_MAX_EDGES ∧
        s'.timing_count ≤ IR_LEARNING_MAX_EDGES)) := by
  constructor
  · intro s d ha hb hd he
    unfold learning_rx_callback signal_end_handler
    rw [ha, hb, he]
    simp only [Bool.true_eq_false, if_false]
    rw [if_neg (show ¬ d < MIN_PULSE_US by omega)]
    norm_num [IR_LEARNING_MAX_EDGES]
  · intro s d hedge htime
    refine ⟨?_, ?_, ?_, ?_, ?_⟩
    · unfold learning_rx_callback signal_end_handler
      split_ifs <;> simp_all <;> omega
    · unfold signal_end_handler
      split_ifs <;> simp_all
    · unfold learning_timeout_handler
      split_ifs <;> simp_all
    · unfold ir_learning_stop
      split_ifs <;> simp_all
    · intro s' n h
      unfold ir_learning_start at h
      split_ifs at h
      cases h
      simp [IR_LEARNING_MAX_EDGES]

/-- Witness for C7: a full buffer (512 accepted edges) plus one more
accepted edge yields a valid signal of 512 timings and a single Completed
notification. -/
theorem rx_overflow_completes_witness :
    learning_rx_callback 100 ⟨[], 0, false, true, 512, true⟩ =
      (⟨[], 512, true, false, 512, true⟩, [.completed]) :=
  (rx_overflow_completes.1 ⟨[], 0, false, true, 512, true⟩ 100 rfl rfl (by norm_num [MIN_PULSE_US])
    rfl)

/-! ### Database cache (irdb_loader.h / irdb_loader.c) -/

def IRDB_CACHE_SIZE : Nat := 4

/-- `irdb_database_t`: the `entries` pointer is `none` when NULL. -/
structure irdb_database_t where
  manufacturer : String
  device_type : String
  entries : Option (List irdb_entry_t)
  entry_count : Nat
deriving Repr, DecidableEq

/-- `irdb_cache_entry_t`: one cache slot. -/
structure irdb_cache_entry_t where
  path : String
  database : irdb_database_t
  last_access : Nat
  valid : Bool
deriving Repr, DecidableEq

/-- The all-zero database a `memset` leaves behind. -/
def empty_database : irdb_database_t := ⟨"", "", none, 0⟩

/-- The all-zero slot; used as the out-of-range default of indexed access. -/
def default_slot : irdb_cache_entry_t := ⟨"", empty_database, 0, false⟩

/-- `irdb_free_database`: when the entry array is non-NULL, free it and
zero the whole structure (otherwise do nothing).  The freed entry array is
returned as a ghost so theorems can speak about what was released. -/
def irdb_free_database (db : irdb_database_t) : irdb_database_t × List (List irdb_entry_t) :=
  match db.entries with
  | some l => (empty_database, [l])
  | none => (db, [])

/-- The slot-selection loop of `irdb_cache_put`: running index `i`,
current candidate `target`, current `oldest` timestamp (initially
`UINT32_MAX`); the first invalid slot short-circuits, otherwise a strictly
older timestamp replaces the candidate. -/
def select_slot_aux : Nat → List irdb_cache_entry_t → Nat → Nat → Nat
  | _, [], target, _ => target
  | i, c :: rest, target, oldest =>
    if c.valid = false then i
    else if c.last_access < oldest then select_slot_aux (i + 1) rest i c.last_access
    else select_slot_aux (i + 1) rest target oldest

def select_slot (cache : List irdb_cache_entry_t) : Nat :=
  select_slot_aux 0 cache 0 UINT32_MAX

/-- `irdb_cache_put` (irdb_loader.c lines 226-281), with the cache slot
array as explicit state, the `k_uptime_get_32()` timestamp as `now`, and
the success of `k_malloc` as `alloc_ok`.  Returns the updated slots, the
status, and the ghost list of freed entry arrays.  On allocation failure
the C code has already overwritten the slot's path and
`database.entry_count`, left `database.entries` NULL, and not touched the
`valid` flag or timestamp — the model reproduces exactly that partial
state. -/
def irdb_cache_put (cache : List irdb_cache_entry_t) (path : String) (db : irdb_database_t)
    (now : Nat) (alloc_ok : Bool) :
    List irdb_cache_entry_t × Except Nat Unit × List (List irdb_entry_t) :=
  let target := select_slot cache
  let old := cache.getD target default_slot
  let fr := if old.valid = true then irdb_free_database old.database else (old.database, [])
  if alloc_ok = false then
    (cache.set target
      { old with
        path := path
        database := { fr.1 with entry_count := db.entry_count, entries := none } },
     .error ENOMEM, fr.2)
  else
    (cache.set target
      { path := path,
        database := { manufacturer := db.manufacturer, device_type := db.device_type,
                      entries := some ((db.entries.getD []).take db.entry_count),
                      entry_count := db.entry_count },
        last_access := now, valid := true },
     .ok (), fr.2)

/-- `irdb_cache_get` (irdb_loader.c lines 204-223): scan for the first
valid slot with the requested path; on a hit refresh its last-access
timestamp and return its database. -/
def irdb_cache_get : List irdb_cache_entry_t → String → Nat →
    Except Nat irdb_database_t × List irdb_cache_entry_t
  | [], _, _ => (.error ENOENT, [])
  | c :: rest, path, now =>
    if c.valid = true ∧ c.path = path then
      (.ok c.database, { c with last_access := now } :: rest)
    else
      let r := irdb_cache_get rest path now
      (r.1, c :: r.2)

/-- `irdb_cache_clear` (irdb_loader.c lines 284-296): free and invalidate
every valid slot. -/
def irdb_cache_clear : List irdb_cache_entry_t →
    List irdb_cache_entry_t × List (List irdb_entry_t)
  | [] => ([], [])
  | c :: rest =>
    let r := irdb_cache_clear rest
    if c.valid = true then
      let f := irdb_free_database c.database
      ({ c with database := f.1, valid := false } :: r.1, f.2 ++ r.2)
    else (c :: r.1, r.2)

/-! ### Claim C9 -/

/-- A one-entry database used to populate the cache scenario. -/
def sample_db : irdb_database_t := ⟨"Sony", "TV", some [⟨"Power", 2, 1, 0, 21⟩], 1⟩

/-- A cache whose four slots are all valid (timestamps 10, 20, 30, 40). -/
def full_cache : List irdb_cache_entry_t :=
  [⟨"p0", sample_db, 10, true⟩, ⟨"p1", sample_db, 20, true⟩,
   ⟨"p2", sample_db, 30, true⟩, ⟨"p3", sample_db, 40, true⟩]

/-- C9 fails on the code: when `irdb_cache_put` hits an allocation failure
while replacing a valid slot, it returns `-ENOMEM` but leaves the slot
observable as `valid = true` with a NULL `entries` pointer and the *new*
path — a partially-initialized state (a subsequent Get of that path hands
out a database whose entry array is NULL). -/
theorem cache_put_alloc_failure_partial_slot :
    (irdb_cache_put full_cache "Sony/TV/1,0.csv" sample_db 100 false).2.1 =
      Except.error ENOMEM ∧
    ((irdb_cache_put full_cache "Sony/TV/1,0.csv" sample_db 100 false).1.getD 0
        default_slot).valid = true ∧
    ((irdb_cache_put full_cache "Sony/TV/1,0.csv" sample_db 100 false).1.getD 0
        default_slot).database.entries = none ∧
    ((irdb_cache_put full_cache "Sony/TV/1,0.csv" sample_db 100 false).1.getD 0
        default_slot).path = "Sony/TV/1,0.csv" :=
  ⟨rfl, rfl, rfl, rfl⟩

/-! ### Slot-selection lemmas -/

lemma getD_set_self {α : Type} (l : List α) (i : Nat) (a d : α) (h : i < l.length) :
    (l.set i a).getD i d = a := by
  induction l generalizing i with
  | nil => simp at h
  | cons c rest ih =>
    cases i with
    | zero => rfl
    | succ i' =>
      simp only [List.set, List.getD_cons_succ]
      exact ih i' (by simpa using h)

lemma getD_set_ne {α : Type} (l : List α) (i j : Nat) (a d : α) (h : i ≠ j) :
    (l.set i a).getD j d = l.getD j d := by
  induction l generalizing i j with
  | nil => simp [List.set]
  | cons c rest ih =>
    cases i with
    | zero =>
      cases j with
      | zero => exact absurd rfl h
      | succ j' => simp [List.set, List.getD_cons_succ]
    | succ i' =>
      cases j with
      | zero => simp [List.set, List.getD_cons_zero]
      | succ j' =>
        simp only [List.set, List.getD_cons_succ]
        exact ih i' j' (by omega)

/-- If slot `k` is the first invalid one, the scan short-circuits there. -/
lemma select_slot_aux_first_invalid :
    ∀ (slots : List irdb_cache_entry_t) (k i target oldest : Nat),
      k < slots.length → (slots.getD k default_slot).valid = false →
      (∀ m, m < k → (slots.getD m default_slot).valid = true) →
      select_slot_aux i slots target oldest = i + k := by
  intro slots
  induction slots with
  | nil => intro k i target oldest hk _ _; simp at hk
  | cons c rest ih =>
    intro k i target oldest hk hkv hprev
    cases k with
    | zero =>
      rw [List.getD_cons_zero] at hkv
      unfold select_slot_aux
      rw [if_pos hkv]
      omega
    | succ k' =>
      have hc : c.valid = true := by
        have := hprev 0 (Nat.succ_pos k')
        rwa [List.getD_cons_zero] at this
      have hk' : k' < rest.length := by simpa using hk
      have hkv' : (rest.getD k' default_slot).valid = false := by
        rwa [List.getD_cons_succ] at hkv
      have hprev' : ∀ m, m < k' → (rest.getD m default_slot).valid = true := by
        intro m hm
        have := hprev (m + 1) (by omega)
        rwa [List.getD_cons_succ] at this
      unfold select_slot_aux
      rw [if_neg (by simp [hc])]
      split_ifs with hlt
      · rw [ih k' (i + 1) i c.last_access hk' hkv' hprev']; omega
      · rw [ih k' (i + 1) target oldest hk' hkv' hprev']; omega

/-- On an all-valid slot list, the scan either keeps the incoming
candidate (when no timestamp beats `oldest`) or returns the first index
attaining the minimal timestamp below `oldest`. -/
lemma select_slot_aux_min :
    ∀ (slots : List irdb_cache_entry_t) (i target oldest : Nat),
      (∀ c ∈ slots, c.valid = true) →
      (select_slot_aux i slots target oldest = target ∧
        ∀ k, k < slots.length → oldest ≤ (slots.getD k default_slot).last_access) ∨
      (∃ k, k < slots.length ∧ select_slot_aux i slots target oldest = i + k ∧
        (slots.getD k default_slot).last_access < oldest ∧
        (∀ m, m < k →
          (slots.getD k default_slot).last_access < (slots.getD m default_slot).last_access) ∧
        (∀ m, k < m → m < slots.length →
          (slots.getD k default_slot).last_access ≤ (slots.getD m default_slot).last_access)) := by
  intro slots
  induction slots with
  | nil =>
    intro i target oldest _
    left
    exact ⟨rfl, fun k hk => absurd hk (by simp)⟩
  | cons c rest ih =>
    intro i target oldest hval
    have hc : c.valid = true := hval c (List.mem_cons_self c rest)
    have hvr : ∀ x ∈ rest, x.valid = true := fun x hx => hval x (List.mem_cons_of_mem c hx)
    unfold select_slot_aux
    rw [if_neg (by simp [hc])]
    by_cases hlt : c.last_access < oldest
    · rw [if_pos hlt]
      rcases ih (i + 1) i c.last_access hvr with ⟨heq, hall⟩ | ⟨k, hk, heq, hklt, hbef, haft⟩
      · right
        refine ⟨0, by simp, by rw [heq]; omega, by rwa [List.getD_cons_zero], ?_, ?_⟩
        · intro m hm; omega
        · intro m h0 hm
          cases m with
          | zero => omega
          | succ m' =>
            rw [List.getD_cons_zero, List.getD_cons_succ]
            exact hall m' (by simpa using hm)
      · right
        refine ⟨k + 1, by simp only [List.length_cons]; omega, by rw [heq]; omega,
          by rw [List.getD_cons_succ]; omega, ?_, ?_⟩
        · intro m hm
          cases m with
          | zero =>
            rw [List.getD_cons_succ, List.getD_cons_zero]
            omega
          | succ m' =>
            rw [List.getD_cons_succ, List.getD_cons_succ]
            exact hbef m' (by omega)
        · intro m hkm hm
          cases m with
          | zero => omega
          | succ m' =>
            rw [List.getD_cons_succ, List.getD_cons_succ]
            exact haft m' (by omega) (by simpa using hm)
    · rw [if_neg hlt]
      rcases ih (i + 1) target oldest hvr with ⟨heq, hall⟩ | ⟨k, hk, heq, hklt, hbef, haft⟩
      · left
        refine ⟨heq, ?_⟩
        intro k hk
        cases k with
        | zero => rw [List.getD_cons_zero]; omega
        | succ k' => rw [List.getD_cons_succ]; exact hall k' (by simpa using hk)
      · right
        refine ⟨k + 1, by simp only [List.length_cons]; omega, by rw [heq]; omega,
          by rwa [List.getD_cons_succ], ?_, ?_⟩
        · intro m hm
          cases m with
          | zero =>
            rw [List.getD_cons_succ, List.getD_cons_zero]
            omega
          | succ m' =>
            rw [List.getD_cons_succ, List.getD_cons_succ]
            exact hbef m' (by omega)
        · intro m hkm hm
          cases m with
          | zero => omega
          | succ m' =>
            rw [List.getD_cons_succ, List.getD_cons_succ]
            exact haft m' (by omega) (by simpa using hm)

lemma select_slot_first_invalid (cache : List irdb_cache_entry_t) (k : Nat)
    (hk : k < cache.length) (hkv : (cache.getD k default_slot).valid = false)
    (hprev : ∀ m, m < k → (cache.getD m default_slot).valid = true) :
    select_slot cache = k := by
  unfold select_slot
  rw [select_slot_aux_first_invalid cache k 0 0 UINT32_MAX hk hkv hprev]
  omega

lemma select_slot_all_valid (cache : List irdb_cache_entry_t) (hne : 0 < cache.length)
    (hval : ∀ c ∈ cache, c.valid = true)
    (hts : ∀ m, m < cache.length → (cache.getD m default_slot).last_access ≤ UINT32_MAX) :
    select_slot cache < cache.length ∧
    (∀ m, m < cache.length →
      (cache.getD (select_slot cache) default_slot).last_access ≤
        (cache.getD m default_slot).last_access) ∧
    (∀ m, m < select_slot cache →
      (cache.getD (select_slot cache) default_slot).last_access <
        (cache.getD m default_slot).last_access) := by
  unfold select_slot
  rcases select_slot_aux_min cache 0 0 UINT32_MAX hval with ⟨heq, hall⟩ |
    ⟨k, hk, heq, hklt, hbef, haft⟩
  · rw [heq]
    refine ⟨hne, ?_, ?_⟩
    · intro m hm
      have h1 := hall m hm
      have h2 := hts m hm
      have h3 := hall 0 hne
      have h4 := hts 0 hne
      omega
    · intro m hm; omega
  · have heq' : select_slot_aux 0 cache 0 UINT32_MAX = k := by omega
    rw [heq']
    refine ⟨hk, ?_, hbef⟩
    intro m hm
    rcases Nat.lt_trichotomy m k with h | h | h
    · exact Nat.le_of_lt (hbef m h)
    · subst h; exact Nat.le_refl _
    · exact haft m h hm

/-- A valid slot whose timestamp is strictly newer than every other slot's
is never chosen by the eviction scan (in a cache of at least two slots
with in-range timestamps). -/
lemma select_slot_ne_recent (cache : List irdb_cache_entry_t) (i : Nat)
    (hi : i < cache.length) (hvi : (cache.getD i default_slot).valid = true)
    (hlen : 2 ≤ cache.length)
    (hts : ∀ j, j < cache.length → (cache.getD j default_slot).last_access ≤ UINT32_MAX)
    (hrec : ∀ j, j < cache.length → j ≠ i →
      (cache.getD j default_slot).last_access < (cache.getD i default_slot).last_access) :
    select_slot cache ≠ i := by
  classical
  by_cases hall : ∀ c ∈ cache, c.valid = true
  · have hspec := select_slot_all_valid cache (by omega) hall hts
    intro hcontra
    have hjlen : (if i = 0 then 1 else 0) < cache.length := by split_ifs <;> omega
    have hjne : (if i = 0 then 1 else 0) ≠ i := by split_ifs with h <;> omega
    have h1 := hspec.2.1 _ hjlen
    rw [hcontra] at h1
    have h2 := hrec _ hjlen hjne
    omega
  · push_neg at hall
    obtain ⟨c, hcmem, hcval⟩ := hall
    obtain ⟨idx, hidx, hceq⟩ := List.mem_iff_getElem.mp hcmem
    have hPex : ∃ j, j < cache.length ∧ (cache.getD j default_slot).valid = false :=
      ⟨idx, hidx, by rw [List.getD_eq_getElem _ _ hidx, hceq]; simpa using hcval⟩
    have hk0 := Nat.find_spec hPex
    have hsel : select_slot cache = Nat.find hPex := by
      apply select_slot_first_invalid cache _ hk0.1 hk0.2
      intro m hm
      have hnm := Nat.find_min hPex hm
      have hmlen : m < cache.length := lt_trans hm hk0.1
      have : ¬ (cache.getD m default_slot).valid = false := fun hf => hnm ⟨hmlen, hf⟩
      simpa using this
    rw [hsel]
    intro hcontra
    rw [hcontra] at hk0
    rw [hk0.2] at hvi
    exact absurd hvi (by simp)

/-- The cache-lookup loop finds the first valid slot with the requested
path and refreshes exactly that slot's timestamp. -/
lemma irdb_cache_get_hit :
    ∀ (cache : List irdb_cache_entry_t) (path : String) (now i : Nat),
      i < cache.length →
      (cache.getD i default_slot).valid = true →
      (cache.getD i default_slot).path = path →
      (∀ m, m < i →
        ¬((cache.getD m default_slot).valid = true ∧ (cache.getD m default_slot).path = path)) →
      irdb_cache_get cache path now =
        (.ok (cache.getD i default_slot).database,
         cache.set i { cache.getD i default_slot with last_access := now }) := by
  intro cache
  induction cache with
  | nil => intro path now i hi _ _ _; simp at hi
  | cons c rest ih =>
    intro path now i hi hv hp hprev
    cases i with
    | zero =>
      rw [List.getD_cons_zero] at hv hp
      unfold irdb_cache_get
      rw [if_pos ⟨hv, hp⟩]
      simp [List.getD_cons_zero, List.set]
    | succ i' =>
      have hnc : ¬(c.valid = true ∧ c.path = path) := by
        have := hprev 0 (Nat.succ_pos i')
        simpa [List.getD_cons_zero] using this
      have hv' : (rest.getD i' default_slot).valid = true := by
        rwa [List.getD_cons_succ] at hv
      have hp' : (rest.getD i' default_slot).path = path := by
        rwa [List.getD_cons_succ] at hp
      have hprev' : ∀ m, m < i' →
          ¬((rest.getD m default_slot).valid = true ∧ (rest.getD m default_slot).path = path) := by
        intro m hm
        have := hprev (m + 1) (by omega)
        rwa [List.getD_cons_succ] at this
      unfold irdb_cache_get
      rw [if_neg hnc]
      rw [ih path now i' (by simpa using hi) hv' hp' hprev']
      simp [List.getD_cons_succ, List.set]

/-! ### Claim C8 -/

/-- C8: the cache's behavior.  (a) `irdb_cache_put` stores into the first
invalid slot when one exists; (b) with all slots valid it stores into the
slot with the smallest last-access timestamp, ties resolving to the lowest
index; (c) a successful Put replaces that slot by a deep copy of the
incoming database (entries and labels) marked valid with the fresh
timestamp, and hands the previously owned entry array of a valid slot to
`free`; (d) `irdb_cache_get` on a hit returns the slot's database and
refreshes exactly that slot's last-access timestamp; (e) after such a
refresh with a strictly newer timestamp the hit slot is not the one the
next Put's eviction scan selects. -/
theorem cache_put_get_spec :
    (∀ (cache : List irdb_cache_entry_t) (k : Nat), k < cache.length →
      (cache.getD k default_slot).valid = false →
      (∀ m, m < k → (cache.getD m default_slot).valid = true) →
      select_slot cache = k) ∧
    (∀ cache : List irdb_cache_entry_t, 0 < cache.length →
      (∀ c ∈ cache, c.valid = true) →
      (∀ m, m < cache.length → (cache.getD m default_slot).last_access ≤ UINT32_MAX) →
      select_slot cache < cache.length ∧
      (∀ m, m < cache.length →
        (cache.getD (select_slot cache) default_slot).last_access ≤
          (cache.getD m default_slot).last_access) ∧
      (∀ m, m < select_slot cache →
        (cache.getD (select_slot cache) default_slot).last_access <
          (cache.getD m default_slot).last_access)) ∧
    (∀ (cache : List irdb_cache_entry_t) (path : String) (db : irdb_database_t)
        (now : Nat) (l : List irdb_entry_t),
      db.entries = some l → db.entry_count = l.length →
      (irdb_cache_put cache path db now true).1 =
        cache.set (select_slot cache)
          ⟨path, ⟨db.manufacturer, db.device_type, some l, l.length⟩, now, true⟩ ∧
      (irdb_cache_put cache path db now true).2.1 = .ok () ∧
      (∀ l' : List irdb_entry_t,
        (cache.getD (select_slot cache) default_slot).valid = true →
        (cache.getD (select_slot cache) default_slot).database.entries = some l' →
        (irdb_cache_put cache path db now true).2.2 = [l'])) ∧
    (∀ (cache : List irdb_cache_entry_t) (path : String) (now i : Nat),
      i < cache.length →
      (cache.getD i default_slot).valid = true →
      (cache.getD i default_slot).path = path →
      (∀ m, m < i →
        ¬((cache.getD m default_slot).valid = true ∧ (cache.getD m default_slot).path = path)) →
      irdb_cache_get cache path now =
        (.ok (cache.getD i default_slot).database,
         cache.set i { cache.getD i default_slot with last_access := now })) ∧
    (∀ (cache : List irdb_cache_entry_t) (path : String) (now i : Nat),
      i < cache.length →
      (cache.getD i default_slot).valid = true →
      (cache.getD i default_slot).path = path →
      (∀ m, m < i →
        ¬((cache.getD m default_slot).valid = true ∧ (cache.getD m default_slot).path = path)) →
      2 ≤ cache.length → now ≤ UINT32_MAX →
      (∀ j, j < cache.length → (cache.getD j default_slot).last_access < now) →
      select_slot (irdb_cache_get cache path now).2 ≠ i) := by
  refine ⟨?_, ?_, ?_, ?_, ?_⟩
  · intro cache k hk hkv hprev
    exact select_slot_first_invalid cache k hk hkv hprev
  · intro cache hne hval hts
    exact select_slot_all_valid cache hne hval hts
  · intro cache path db now l hent hcount
    unfold irdb_cache_put
    simp only [Bool.true_eq_false, if_false]
    refine ⟨?_, trivial, ?_⟩
    · rw [hent, hcount]
      simp [List.take_length]
    · intro l' hval' hent'
      rw [if_pos hval']
      unfold irdb_free_database
      rw [hent']
  · intro cache path now i hi hv hp hprev
    exact irdb_cache_get_hit cache path now i hi hv hp hprev
  · intro cache path now i hi hv hp hprev hlen hnow hrec
    rw [irdb_cache_get_hit cache path now i hi hv hp hprev]
    refine select_slot_ne_recent _ i (by simpa using hi) ?_ (by simpa using hlen) ?_ ?_
    · rw [getD_set_self _ _ _ _ hi]
      simpa using hv
    · intro j hj
      rw [List.length_set] at hj
      by_cases hji : j = i
      · subst hji
        rw [getD_set_self _ _ _ _ hj]
        simpa using hnow
      · rw [getD_set_ne _ _ _ _ _ (fun h => hji h.symm)]
        exact le_of_lt (lt_of_lt_of_le (hrec j hj) hnow)
    · intro j hj hji
      rw [List.length_set] at hj
      rw [getD_set_ne _ _ _ _ _ (fun h => hji h.symm), getD_set_self _ _ _ _ hi]
      simpa using hrec j hj

/-- Witness for C8: on the all-valid four-slot cache, a successful Put
replaces slot 0 (oldest timestamp) with the deep copy, and a Get of "p2"
with a fresh timestamp protects slot 2 from the next eviction scan. -/
theorem cache_put_get_spec_witness :
    (irdb_cache_put full_cache "new" sample_db 99 true).1 =
      full_cache.set (select_slot full_cache)
        ⟨"new", ⟨"Sony", "TV", some [⟨"Power", 2, 1, 0, 21⟩], 1⟩, 99, true⟩ ∧
    select_slot (irdb_cache_get full_cache "p2" 50).2 ≠ 2 :=
  ⟨(cache_put_get_spec.2.2.1 full_cache "new" sample_db 99 [⟨"Power", 2, 1, 0, 21⟩]
      rfl rfl).1,
   cache_put_get_spec.2.2.2.2 full_cache "p2" 50 2 (by norm_num [full_cache]) rfl rfl
     (by decide) (by norm_num [full_cache]) (by norm_num [UINT32_MAX])
     (by decide)⟩

end IrSpec
